import Mathlib

/-! # Scientific function evaluator of the calculator engine

A shallow embedding of `src/CalcManager/CEngine/scifunc.cpp`
(`CCalcEngine::SciCalcFunctions` and `CCalcEngine::DisplayError`) and the
properties of it that its specification states.

* `Rational` values are exact rationals (`ℚ`); `+ - * /` and unary minus on them
  are the exact field operations.
* `uint64_t` locals are natural numbers reduced modulo `2 ^ 64`.
* The C++ exception `throw (DWORD)` raised inside the arithmetic library is the
  `Except.error` arm of the library call; the `try`/`catch` of the evaluator is a
  `match` on the outcome of the `try` block.
* The engine members read or written by the two functions form the record
  `CCalcEngine`; the evaluator returns its result together with the updated record.
-/

namespace CalcEngine

/-- Exact rational value type of the engine. -/
abbrev Rational := ℚ

/-- Error codes and command identifiers are 32-bit unsigned values. -/
abbrev DWORD := ℕ

/-- Modelled from the spec: the command identifiers `IDC_*` are declared in a header
that is not among the sources. They are pairwise distinct constants (labels of one
`switch`), so a code is either one of the identifiers the evaluator names or any
`other` value. -/
inductive OpCode where
  | IDC_CHOP | IDC_COM | IDC_ROL | IDC_ROR | IDC_PERCENT
  | IDC_SIN | IDC_SINH | IDC_COS | IDC_COSH | IDC_TAN | IDC_TANH
  | IDC_REC | IDC_SQR | IDC_SQRT | IDC_CUBEROOT | IDC_CUB
  | IDC_LOG | IDC_POW10 | IDC_LN | IDC_FAC | IDC_DEGREES | IDC_DMS
  | IDC_INV | IDC_MUL | IDC_DIV
  | other (code : DWORD)
  deriving DecidableEq, Repr

/-- Modelled from the spec: the angle unit of the circular functions
(degrees / radians / gradians); its declaration is not among the sources. -/
inductive ANGLE_TYPE where
  | ANGLE_DEG | ANGLE_RAD | ANGLE_GRAD
  deriving DecidableEq, Repr

/-- Modelled from the spec: `RationalMath::Integer`, the library's
"truncateToInteger" ("integer part"), absent from the sources: the integer obtained
by discarding the fractional digits, that is, rounding toward zero. -/
def Integer (rat : Rational) : Rational :=
  ((Int.tdiv rat.num (rat.den : ℤ) : ℤ) : ℚ)

/-- Modelled from the spec: `RationalMath::Frac`, the library's "fractionalPart",
absent from the sources: what remains after removing the integer part. -/
def Frac (rat : Rational) : Rational :=
  rat - Integer rat

/-- Modelled from the spec: the part of the rational arithmetic library, absent from
the sources, whose results are not determined by exact field arithmetic. Every entry
may fail with an error code (the C++ functions throw a `DWORD`). -/
structure RationalMath where
  Sin : Rational → ANGLE_TYPE → Except DWORD Rational
  ASin : Rational → ANGLE_TYPE → Except DWORD Rational
  Sinh : Rational → Except DWORD Rational
  ASinh : Rational → Except DWORD Rational
  Cos : Rational → ANGLE_TYPE → Except DWORD Rational
  ACos : Rational → ANGLE_TYPE → Except DWORD Rational
  Cosh : Rational → Except DWORD Rational
  ACosh : Rational → Except DWORD Rational
  Tan : Rational → ANGLE_TYPE → Except DWORD Rational
  ATan : Rational → ANGLE_TYPE → Except DWORD Rational
  Tanh : Rational → Except DWORD Rational
  ATanh : Rational → Except DWORD Rational
  Invert : Rational → Except DWORD Rational
  Pow : Rational → Rational → Except DWORD Rational
  Root : Rational → Rational → Except DWORD Rational
  Log10 : Rational → Except DWORD Rational
  Log : Rational → Except DWORD Rational
  Exp : Rational → Except DWORD Rational
  Fact : Rational → Except DWORD Rational
  /-- Bitwise exclusive or of two rationals (`operator^`). -/
  Xor : Rational → Rational → Except DWORD Rational
  /-- Conversion `Rational::ToUInt64_t`. -/
  ToUInt64_t : Rational → Except DWORD ℕ

/-- Modelled from the spec: the string-resource lookup used by the error display
driver (`GetString`, `IDS_ERRORS_FIRST`, `SCODE_CODE`), absent from the sources. -/
structure Resources where
  GetString : ℕ → String
  IDS_ERRORS_FIRST : ℕ
  SCODE_CODE : DWORD → ℕ

/-- The members of `CCalcEngine` that `SciCalcFunctions` and `DisplayError` read or
write. The two sinks (primary display, history collector) are the sequences of
calls they have accepted, most recent last. -/
structure CCalcEngine where
  m_bInv : Bool
  m_radix : ℕ
  m_fIntegerMode : Bool
  /-- Table of all-ones masks, indexed by `m_numwidth`. -/
  m_chopNumbers : ℕ → Rational
  m_numwidth : ℕ
  m_dwWordBitWidth : ℕ
  m_nOpCode : OpCode
  m_lastVal : Rational
  m_angletype : ANGLE_TYPE
  m_bError : Bool
  /-- Calls `SetPrimaryDisplay (text, isError)` accepted so far. -/
  m_primaryDisplay : List (String × Bool)
  /-- Calls `m_HistoryCollector.ClearHistoryLine (text)` accepted so far. -/
  m_HistoryCollector : List String

/-- Modelled from the spec: `ProcessCommand`, absent from the sources. The only
command the evaluator issues is `IDC_INV`, "the equivalent of toggling the inverse
flag"; other commands are not issued here and leave the record as it is. -/
def ProcessCommand (c : CCalcEngine) (wParam : OpCode) : CCalcEngine :=
  match wParam with
  | .IDC_INV => { c with m_bInv := !c.m_bInv }
  | _ => c

/-- Body of `case IDC_ROL` on the 64-bit image of the operand. The shift count
`m_dwWordBitWidth - 1` is the C++ one for widths of at least 1, the only widths the
properties below consider. -/
def rotateLeft64 (w64Bits m_dwWordBitWidth : ℕ) : ℕ :=
  let w64Bits := w64Bits % 2 ^ 64
  let msb := (w64Bits >>> (m_dwWordBitWidth - 1)) &&& 1
  let w64Bits := (w64Bits <<< 1) % 2 ^ 64
  w64Bits ||| msb

/-- Body of `case IDC_ROR` on the 64-bit image of the operand (same remark on the
shift count as for `rotateLeft64`). -/
def rotateRight64 (w64Bits m_dwWordBitWidth : ℕ) : ℕ :=
  let w64Bits := w64Bits % 2 ^ 64
  let lsb := if (w64Bits &&& 0x01) = 1 then 1 else 0
  let w64Bits := w64Bits >>> 1
  w64Bits ||| ((lsb <<< (m_dwWordBitWidth - 1)) % 2 ^ 64)

/-- Body of `case IDC_DMS` outside integer mode: the degree-minute-second
conversion, `bInv` being the inverse flag. -/
def dmsConvert (bInv : Bool) (rat : Rational) : Rational :=
  let shftRat : Rational := if bInv then 100 else 60
  let degreeRat := Integer rat
  let minuteRat := (rat - degreeRat) * shftRat
  let secondRat := minuteRat
  let minuteRat := Integer minuteRat
  let secondRat := (secondRat - minuteRat) * shftRat
  let shftRat : Rational := if bInv then 60 else 100
  let secondRat := secondRat / shftRat
  let minuteRat := (minuteRat + secondRat) / shftRat
  degreeRat + minuteRat

/-- The `try` block of `SciCalcFunctions`: the `switch` over the operator. Returns
the engine record as left by the block and either the value assigned to `result`
or the error code thrown by the library. `result` starts as `Rational{}`, zero. -/
def SciCalcFunctions.tryBlock (M : RationalMath) (c : CCalcEngine) (rat : Rational)
    (op : OpCode) : CCalcEngine × Except DWORD Rational :=
  match op with
  | .IDC_CHOP => (c, .ok (if c.m_bInv then Frac rat else Integer rat))
  | .IDC_COM =>
    if c.m_radix = 10 ∧ c.m_fIntegerMode = false then
      (c, .ok (-(Integer rat + 1)))
    else
      (c, M.Xor rat (c.m_chopNumbers c.m_numwidth))
  | .IDC_ROL =>
    if c.m_fIntegerMode then
      (c, (M.ToUInt64_t (Integer rat)).map
        (fun w64Bits => ((rotateLeft64 w64Bits c.m_dwWordBitWidth : ℕ) : ℚ)))
    else (c, .ok 0)
  | .IDC_ROR =>
    if c.m_fIntegerMode then
      (c, (M.ToUInt64_t (Integer rat)).map
        (fun w64Bits => ((rotateRight64 w64Bits c.m_dwWordBitWidth : ℕ) : ℚ)))
    else (c, .ok 0)
  | .IDC_PERCENT =>
    if c.m_nOpCode = .IDC_MUL ∨ c.m_nOpCode = .IDC_DIV then
      (c, .ok (rat / 100))
    else
      (c, .ok (rat * (c.m_lastVal / 100)))
  | .IDC_SIN =>
    if c.m_fIntegerMode = false then
      (c, if c.m_bInv then M.ASin rat c.m_angletype else M.Sin rat c.m_angletype)
    else (c, .ok 0)
  | .IDC_SINH =>
    if c.m_fIntegerMode = false then
      (c, if c.m_bInv then M.ASinh rat else M.Sinh rat)
    else (c, .ok 0)
  | .IDC_COS =>
    if c.m_fIntegerMode = false then
      (c, if c.m_bInv then M.ACos rat c.m_angletype else M.Cos rat c.m_angletype)
    else (c, .ok 0)
  | .IDC_COSH =>
    if c.m_fIntegerMode = false then
      (c, if c.m_bInv then M.ACosh rat else M.Cosh rat)
    else (c, .ok 0)
  | .IDC_TAN =>
    if c.m_fIntegerMode = false then
      (c, if c.m_bInv then M.ATan rat c.m_angletype else M.Tan rat c.m_angletype)
    else (c, .ok 0)
  | .IDC_TANH =>
    if c.m_fIntegerMode = false then
      (c, if c.m_bInv then M.ATanh rat else M.Tanh rat)
    else (c, .ok 0)
  | .IDC_REC => (c, M.Invert rat)
  | .IDC_SQR => (c, M.Pow rat 2)
  | .IDC_SQRT => (c, M.Root rat 2)
  | .IDC_CUBEROOT => (c, M.Root rat 3)
  | .IDC_CUB => (c, M.Pow rat 3)
  | .IDC_LOG => (c, M.Log10 rat)
  | .IDC_POW10 => (c, M.Pow 10 rat)
  | .IDC_LN => (c, if c.m_bInv then M.Exp rat else M.Log rat)
  | .IDC_FAC => (c, M.Fact rat)
  | .IDC_DEGREES =>
    let c := ProcessCommand c .IDC_INV
    if c.m_fIntegerMode = false then (c, .ok (dmsConvert c.m_bInv rat)) else (c, .ok 0)
  | .IDC_DMS =>
    if c.m_fIntegerMode = false then (c, .ok (dmsConvert c.m_bInv rat)) else (c, .ok 0)
  | _ => (c, .ok 0)

/-- `CCalcEngine::DisplayError`: look the message up, push it to the primary display
flagged as an error, set the error flag, hand the message to the history collector. -/
def DisplayError (R : Resources) (c : CCalcEngine) (nError : DWORD) : CCalcEngine :=
  let errorString := R.GetString (R.IDS_ERRORS_FIRST + R.SCODE_CODE nError)
  let c := { c with m_primaryDisplay := c.m_primaryDisplay ++ [(errorString, true)] }
  let c := { c with m_bError := true }
  { c with m_HistoryCollector := c.m_HistoryCollector ++ [errorString] }

/-- `CCalcEngine::SciCalcFunctions`: run the `switch`; if the library threw,
display the error and return the operand. -/
def SciCalcFunctions (M : RationalMath) (R : Resources) (c : CCalcEngine)
    (rat : Rational) (op : OpCode) : Rational × CCalcEngine :=
  match SciCalcFunctions.tryBlock M c rat op with
  | (c, .ok result) => (result, c)
  | (c, .error nErrCode) => (rat, DisplayError R c nErrCode)

/-! ## Concrete instances

A small library instance, a resource table and two engine records, used to evaluate
the evaluator on concrete inputs. -/

/-- A library instance that is exact where the result is rational (reciprocal,
natural powers, factorial / xor / conversion of representable naturals) and reports
error code `1` for every other call; reciprocal of zero reports code `0`. -/
def sampleMath : RationalMath where
  Sin := fun _ _ => .error 1
  ASin := fun _ _ => .error 1
  Sinh := fun _ => .error 1
  ASinh := fun _ => .error 1
  Cos := fun _ _ => .error 1
  ACos := fun _ _ => .error 1
  Cosh := fun _ => .error 1
  ACosh := fun _ => .error 1
  Tan := fun _ _ => .error 1
  ATan := fun _ _ => .error 1
  Tanh := fun _ => .error 1
  ATanh := fun _ => .error 1
  Invert := fun x => if x = 0 then .error 0 else .ok x⁻¹
  Pow := fun x y => if y.den = 1 ∧ 0 ≤ y.num then .ok (x ^ y.num.toNat) else .error 1
  Root := fun _ _ => .error 1
  Log10 := fun _ => .error 1
  Log := fun _ => .error 1
  Exp := fun _ => .error 1
  Fact := fun x =>
    if x.den = 1 ∧ 0 ≤ x.num then .ok ((x.num.toNat.factorial : ℕ) : ℚ) else .error 1
  Xor := fun a b =>
    if a.den = 1 ∧ 0 ≤ a.num ∧ b.den = 1 ∧ 0 ≤ b.num then
      .ok ((a.num.toNat ^^^ b.num.toNat : ℕ) : ℚ)
    else .error 1
  ToUInt64_t := fun x =>
    if x.den = 1 ∧ 0 ≤ x.num ∧ x.num < 2 ^ 64 then .ok x.num.toNat else .error 1

/-- A resource table: message `n` is the decimal numeral of `n`. -/
def sampleResources : Resources where
  GetString := fun n => toString n
  IDS_ERRORS_FIRST := 100
  SCODE_CODE := fun n => n % 65536

/-- An engine record in decimal, non-integer mode, nothing pending, no error. -/
def sampleEngine : CCalcEngine where
  m_bInv := false
  m_radix := 10
  m_fIntegerMode := false
  m_chopNumbers := fun i =>
    match i with
    | 0 => 18446744073709551615
    | 1 => 4294967295
    | 2 => 65535
    | _ => 255
  m_numwidth := 0
  m_dwWordBitWidth := 64
  m_nOpCode := .other 0
  m_lastVal := 0
  m_angletype := .ANGLE_DEG
  m_bError := false
  m_primaryDisplay := []
  m_HistoryCollector := []

/-- An engine record in integer mode, radix 2, with a word of 8 bits. -/
def sampleByteEngine : CCalcEngine :=
  { sampleEngine with m_radix := 2, m_fIntegerMode := true, m_numwidth := 3,
                      m_dwWordBitWidth := 8 }

/-! ## The integer part -/

theorem Integer_neg (x : ℚ) : Integer (-x) = -Integer x := by
  simp [Integer, Int.neg_tdiv]

theorem Integer_of_nonneg (x : ℚ) (hx : 0 ≤ x) : Integer x = (⌊x⌋ : ℚ) := by
  have hn : 0 ≤ x.num := Rat.num_nonneg.mpr hx
  simp only [Integer]
  rw [Int.tdiv_eq_ediv hn (by positivity), Rat.floor_def]

theorem Integer_of_nonpos (x : ℚ) (hx : x ≤ 0) : Integer x = (⌈x⌉ : ℚ) := by
  have h := Integer_of_nonneg (-x) (by linarith)
  rw [Integer_neg] at h
  have h2 : Integer x = -(⌊-x⌋ : ℚ) := by linarith
  rw [h2, Int.floor_neg]; simp

theorem Integer_add_frac (n : ℤ) (f : ℚ) (hn : 0 ≤ n) (hf0 : 0 ≤ f) (hf1 : f < 1) :
    Integer ((n : ℚ) + f) = n := by
  have hx : (0 : ℚ) ≤ (n : ℚ) + f := by
    have : (0 : ℚ) ≤ (n : ℚ) := by exact_mod_cast hn
    linarith
  rw [Integer_of_nonneg _ hx]
  have : ⌊(n : ℚ) + f⌋ = n := by
    rw [Int.floor_eq_iff]; constructor <;> linarith
  rw [this]

theorem Integer_natCast (n : ℕ) : Integer (n : ℚ) = n := by
  have h := Integer_add_frac (n : ℤ) 0 (by positivity) le_rfl (by norm_num)
  simpa using h

theorem Integer_floor_fract (x : ℚ) (hx : 0 ≤ x) :
    0 ≤ ⌊x⌋ ∧ 0 ≤ x - Integer x ∧ x - Integer x < 1 := by
  rw [Integer_of_nonneg x hx]
  refine ⟨Int.floor_nonneg.mpr hx, ?_, ?_⟩
  · linarith [Int.floor_le x]
  · linarith [Int.lt_floor_add_one x]

/-! ## The degree-minute-second conversion -/

theorem dmsConvert_neg (b : Bool) (x : ℚ) : dmsConvert b (-x) = -dmsConvert b x := by
  simp only [dmsConvert]
  have h1 : (-x - Integer (-x)) = -(x - Integer x) := by rw [Integer_neg]; ring
  rw [h1, neg_mul, Integer_neg, Integer_neg]
  ring

theorem dms_roundtrip_nonneg (x : ℚ) (hx : 0 ≤ x) :
    dmsConvert true (dmsConvert false x) = x := by
  obtain ⟨hd, hf0, hf1⟩ := Integer_floor_fract x hx
  have hI := Integer_of_nonneg x hx
  set f := x - Integer x with hf
  have hm0 : 0 ≤ f * 60 := by positivity
  obtain ⟨hmn, hg0, hg1⟩ := Integer_floor_fract (f * 60) hm0
  have hIm := Integer_of_nonneg (f * 60) hm0
  set g := f * 60 - Integer (f * 60) with hg
  have hmle : Integer (f * 60) ≤ 59 := by
    rw [hIm]
    have h60 : ⌊f * 60⌋ < 60 := by
      rw [Int.floor_lt]; push_cast; linarith
    have h59 : ⌊f * 60⌋ ≤ 59 := by omega
    exact_mod_cast h59
  have hmq : 0 ≤ Integer (f * 60) := by rw [hIm]; exact_mod_cast hmn
  -- the packed value produced by the encoding
  have henc : dmsConvert false x
      = (⌊x⌋ : ℚ) + ((⌊f * 60⌋ : ℚ) + g * 60 / 100) / 100 := by
    simp only [dmsConvert, Bool.false_eq_true, if_false]
    rw [← hf, ← hg, hIm, hI]
  rw [henc]
  have hfr0 : 0 ≤ ((⌊f * 60⌋ : ℚ) + g * 60 / 100) / 100 := by
    rw [← hIm]; positivity
  have hfr1 : ((⌊f * 60⌋ : ℚ) + g * 60 / 100) / 100 < 1 := by
    rw [← hIm]; linarith
  have hd2 := Integer_add_frac ⌊x⌋ _ hd hfr0 hfr1
  have hs0 : 0 ≤ g * 60 / 100 := by positivity
  have hs1 : g * 60 / 100 < 1 := by linarith
  have hm2 := Integer_add_frac ⌊f * 60⌋ _ hmn hs0 hs1
  simp only [dmsConvert, if_true]
  rw [hd2]
  have e1 : ((⌊x⌋ : ℚ) + ((⌊f * 60⌋ : ℚ) + g * 60 / 100) / 100 - ⌊x⌋) * 100
      = (⌊f * 60⌋ : ℚ) + g * 60 / 100 := by ring
  rw [e1, hm2]
  rw [← hIm, ← hI]
  simp only [hg, hf]
  ring

theorem dms_roundtrip (x : ℚ) : dmsConvert true (dmsConvert false x) = x := by
  rcases le_total 0 x with hx | hx
  · exact dms_roundtrip_nonneg x hx
  · have h := dms_roundtrip_nonneg (-x) (by linarith)
    rw [dmsConvert_neg, dmsConvert_neg] at h
    linarith

theorem dmsConvert_decode_30_5025 : dmsConvert true (305025 / 10000) = 30 + 50 / 60 + 25 / 3600 := by
  have h1 : Integer (305025 / 10000) = 30 := by
    have h := Integer_add_frac 30 (5025 / 10000) (by norm_num) (by norm_num) (by norm_num)
    have e : ((30 : ℤ) : ℚ) + 5025 / 10000 = 305025 / 10000 := by norm_num
    rw [e] at h; simpa using h
  have h2 : Integer ((305025 / 10000 - 30) * 100) = 50 := by
    have h := Integer_add_frac 50 (25 / 100) (by norm_num) (by norm_num) (by norm_num)
    have e : ((50 : ℤ) : ℚ) + 25 / 100 = (305025 / 10000 - 30) * 100 := by norm_num
    rw [e] at h; simpa using h
  simp only [dmsConvert, if_true]
  rw [h1, h2]
  norm_num

/-! ## Rotation of a 64-bit word -/

theorem two_mul_lor_one (a : ℕ) : 2 * a ||| 1 = 2 * a + 1 := by
  have h : 2 * a ||| 1 = Nat.bit false a ||| Nat.bit true 0 := by simp [Nat.bit_val]
  rw [h, Nat.lor_bit]
  simp [Nat.bit_val]

theorem lt_of_testBit {w W i : ℕ} (hw : w < 2 ^ W) (hi : w.testBit i = true) : i < W := by
  by_contra hcon
  have hle : W ≤ i := Nat.le_of_not_lt hcon
  have hlt : w < 2 ^ i := lt_of_lt_of_le hw (Nat.pow_le_pow_right (by norm_num) hle)
  rw [Nat.testBit_lt_two_pow hlt] at hi
  exact Bool.noConfusion hi

theorem msb_lt_two (w W : ℕ) (hW1 : 1 ≤ W) (hw : w < 2 ^ W) : w / 2 ^ (W - 1) < 2 := by
  rw [Nat.div_lt_iff_lt_mul (by positivity)]
  calc w < 2 ^ W := hw
    _ = 2 ^ (W - 1 + 1) := by rw [Nat.sub_add_cancel hW1]
    _ = 2 * 2 ^ (W - 1) := by rw [pow_succ]; ring

theorem msb_eq_testBit (w W : ℕ) (hW1 : 1 ≤ W) (hw : w < 2 ^ W) :
    w / 2 ^ (W - 1) = (w.testBit (W - 1)).toNat := by
  have hmsb := msb_lt_two w W hW1 hw
  rw [Nat.testBit_to_div_mod, Nat.mod_eq_of_lt hmsb]
  interval_cases w / 2 ^ (W - 1) <;> simp

theorem rotateLeft64_eq (w W : ℕ) (hW1 : 1 ≤ W) (hW : W ≤ 64) (hw : w < 2 ^ W) :
    rotateLeft64 w W = 2 * (w % 2 ^ 63) + w / 2 ^ (W - 1) := by
  have hw64 : w < 2 ^ 64 := lt_of_lt_of_le hw (Nat.pow_le_pow_right (by norm_num) hW)
  have hmsb := msb_lt_two w W hW1 hw
  simp only [rotateLeft64]
  rw [Nat.mod_eq_of_lt hw64, Nat.and_one_is_mod, Nat.shiftRight_eq_div_pow,
    Nat.mod_eq_of_lt hmsb, Nat.shiftLeft_eq, pow_one, Nat.mul_comm w 2]
  have heven : (2 * w) % 2 ^ 64 = 2 * (w % 2 ^ 63) := by omega
  rw [heven]
  interval_cases h : w / 2 ^ (W - 1)
  · simp
  · exact two_mul_lor_one _

theorem rotateLeft64_lt (w W : ℕ) (hW1 : 1 ≤ W) (hW : W ≤ 64) (hw : w < 2 ^ W) :
    rotateLeft64 w W < 2 ^ 64 := by
  rw [rotateLeft64_eq w W hW1 hW hw]
  have hmsb := msb_lt_two w W hW1 hw
  omega

theorem rotateRight64_rotateLeft64 (w W : ℕ) (hW1 : 1 ≤ W) (hW : W ≤ 64) (hw : w < 2 ^ W) :
    rotateRight64 (rotateLeft64 w W) W = w := by
  rw [rotateLeft64_eq w W hW1 hW hw]
  have hmsb := msb_lt_two w W hW1 hw
  have hb := msb_eq_testBit w W hW1 hw
  set b := w / 2 ^ (W - 1) with hbdef
  have hlt : 2 * (w % 2 ^ 63) + b < 2 ^ 64 := by omega
  simp only [rotateRight64]
  rw [Nat.mod_eq_of_lt hlt, Nat.and_one_is_mod, Nat.shiftRight_eq_div_pow, pow_one,
    Nat.shiftLeft_eq]
  have h1 : (2 * (w % 2 ^ 63) + b) % 2 = b := by omega
  have h2 : (2 * (w % 2 ^ 63) + b) / 2 = w % 2 ^ 63 := by omega
  rw [h1, h2]
  have hp : 2 ^ (W - 1) < 2 ^ 64 := Nat.pow_lt_pow_right (by norm_num) (by omega)
  apply Nat.eq_of_testBit_eq
  intro i
  rw [Nat.testBit_lor, Nat.testBit_mod_two_pow]
  interval_cases b
  · have hfalse : w.testBit (W - 1) = false := by
      cases hc : w.testBit (W - 1) <;> simp [hc] at hb ⊢
    rw [if_neg (by decide), Nat.zero_mul, Nat.zero_mod, Nat.zero_testBit, Bool.or_false]
    cases hi : w.testBit i
    · simp
    · have h3 := lt_of_testBit hw hi
      have h4 : i ≠ W - 1 := by
        intro h; rw [h, hfalse] at hi; exact Bool.noConfusion hi
      have h5 : i < 63 := by omega
      simp [h5]
  · have htrue : w.testBit (W - 1) = true := by
      cases hc : w.testBit (W - 1) <;> simp [hc] at hb ⊢
    rw [if_pos rfl, Nat.one_mul, Nat.mod_eq_of_lt hp, Nat.testBit_two_pow]
    by_cases h : W - 1 = i
    · subst h; simp [htrue]
    · cases hi : w.testBit i
      · simp [h]
      · have h3 := lt_of_testBit hw hi
        have h5 : i < 63 := by omega
        simp [h5]

/-! ## The evaluator -/

/-- The `try` block changes the engine record only through the command issued by
`case IDC_DEGREES`. -/
theorem tryBlock_fst (M : RationalMath) (c : CCalcEngine) (rat : Rational) (op : OpCode) :
    (SciCalcFunctions.tryBlock M c rat op).1
      = if op = .IDC_DEGREES then ProcessCommand c .IDC_INV else c := by
  cases op <;> simp only [SciCalcFunctions.tryBlock, reduceCtorEq, if_false, if_true] <;>
    first | rfl | (split <;> rfl)

/-- Outcome of the evaluator when the `try` block completes. -/
theorem SciCalcFunctions_of_ok (M : RationalMath) (R : Resources) (c : CCalcEngine)
    (rat : Rational) (op : OpCode) (result : Rational)
    (h : (SciCalcFunctions.tryBlock M c rat op).2 = .ok result) :
    SciCalcFunctions M R c rat op = (result, (SciCalcFunctions.tryBlock M c rat op).1) := by
  unfold SciCalcFunctions
  rcases hb : SciCalcFunctions.tryBlock M c rat op with ⟨c1, r⟩
  rw [hb] at h
  simp only at h
  subst h
  rfl

/-- Outcome of the evaluator when the library throws inside the `try` block. -/
theorem SciCalcFunctions_of_error (M : RationalMath) (R : Resources) (c : CCalcEngine)
    (rat : Rational) (op : OpCode) (nErrCode : DWORD)
    (h : (SciCalcFunctions.tryBlock M c rat op).2 = .error nErrCode) :
    SciCalcFunctions M R c rat op
      = (rat, DisplayError R (SciCalcFunctions.tryBlock M c rat op).1 nErrCode) := by
  unfold SciCalcFunctions
  rcases hb : SciCalcFunctions.tryBlock M c rat op with ⟨c1, r⟩
  rw [hb] at h
  simp only at h
  subst h
  rfl

/-! ## The specified properties -/

/-- C1: whenever the arithmetic library signals an error code while the evaluator
runs an operator on an operand (the `try` block ends with that code thrown), the
evaluator returns the operand itself, the error flag is set afterwards, and the error
display driver has run exactly once with that code: the primary display and the
history collector have each accepted exactly one more call, carrying the message of
that code (the display call flagged as an error). -/
theorem SciCalcFunctions_error_path (M : RationalMath) (R : Resources) (c : CCalcEngine)
    (rat : Rational) (op : OpCode) (nErrCode : DWORD)
    (h : (SciCalcFunctions.tryBlock M c rat op).2 = .error nErrCode) :
    (SciCalcFunctions M R c rat op).1 = rat ∧
    (SciCalcFunctions M R c rat op).2.m_bError = true ∧
    (SciCalcFunctions M R c rat op).2.m_primaryDisplay
      = c.m_primaryDisplay
          ++ [(R.GetString (R.IDS_ERRORS_FIRST + R.SCODE_CODE nErrCode), true)] ∧
    (SciCalcFunctions M R c rat op).2.m_HistoryCollector
      = c.m_HistoryCollector
          ++ [R.GetString (R.IDS_ERRORS_FIRST + R.SCODE_CODE nErrCode)] := by
  rw [SciCalcFunctions_of_error M R c rat op nErrCode h, tryBlock_fst]
  by_cases hop : op = .IDC_DEGREES
  · simp [hop, DisplayError, ProcessCommand]
  · simp [hop, DisplayError]

/-- Witness of C1: the reciprocal of zero, for which the sample library signals
code `0`. -/
theorem SciCalcFunctions_error_path_witness :
    (SciCalcFunctions sampleMath sampleResources sampleEngine 0 .IDC_REC).1 = 0 ∧
    (SciCalcFunctions sampleMath sampleResources sampleEngine 0 .IDC_REC).2.m_bError
      = true ∧
    (SciCalcFunctions sampleMath sampleResources sampleEngine 0 .IDC_REC).2.m_primaryDisplay
      = sampleEngine.m_primaryDisplay
          ++ [(sampleResources.GetString
                (sampleResources.IDS_ERRORS_FIRST + sampleResources.SCODE_CODE 0), true)] ∧
    (SciCalcFunctions sampleMath sampleResources sampleEngine 0 .IDC_REC).2.m_HistoryCollector
      = sampleEngine.m_HistoryCollector
          ++ [sampleResources.GetString
                (sampleResources.IDS_ERRORS_FIRST + sampleResources.SCODE_CODE 0)] :=
  SciCalcFunctions_error_path sampleMath sampleResources sampleEngine 0 .IDC_REC 0
    (by simp [SciCalcFunctions.tryBlock, sampleMath])

/-- C2: in integer mode, for a word width between 1 and 64 and an integer `w` with
`0 ≤ w < 2 ^ width`, rotating left and then rotating the result right gives `w`
back, for every library whose conversion to a 64-bit unsigned integer is exact on the
values that fit in 64 bits. -/
theorem rotateRight_rotateLeft (M : RationalMath) (R : Resources) (c : CCalcEngine)
    (w : ℕ) (hInt : c.m_fIntegerMode = true)
    (hW1 : 1 ≤ c.m_dwWordBitWidth) (hW64 : c.m_dwWordBitWidth ≤ 64)
    (hw : w < 2 ^ c.m_dwWordBitWidth)
    (hconv : ∀ n : ℕ, n < 2 ^ 64 → M.ToUInt64_t (n : ℚ) = .ok n) :
    (SciCalcFunctions M R (SciCalcFunctions M R c (w : ℚ) .IDC_ROL).2
      (SciCalcFunctions M R c (w : ℚ) .IDC_ROL).1 .IDC_ROR).1 = (w : ℚ) := by
  have hw64 : w < 2 ^ 64 := lt_of_lt_of_le hw (Nat.pow_le_pow_right (by norm_num) hW64)
  have hrol : (SciCalcFunctions.tryBlock M c (w : ℚ) .IDC_ROL).2
      = .ok ((rotateLeft64 w c.m_dwWordBitWidth : ℕ) : ℚ) := by
    simp only [SciCalcFunctions.tryBlock, hInt, if_true, Integer_natCast, hconv w hw64]
    rfl
  rw [SciCalcFunctions_of_ok M R c _ _ _ hrol, tryBlock_fst]
  simp only [reduceCtorEq, if_false]
  have hlt := rotateLeft64_lt w c.m_dwWordBitWidth hW1 hW64 hw
  have hror : (SciCalcFunctions.tryBlock M c
      ((rotateLeft64 w c.m_dwWordBitWidth : ℕ) : ℚ) .IDC_ROR).2
      = .ok ((rotateRight64 (rotateLeft64 w c.m_dwWordBitWidth) c.m_dwWordBitWidth : ℕ) : ℚ) := by
    simp only [SciCalcFunctions.tryBlock, hInt, if_true, Integer_natCast, hconv _ hlt]
    rfl
  rw [SciCalcFunctions_of_ok M R c _ _ _ hror,
    rotateRight64_rotateLeft64 w c.m_dwWordBitWidth hW1 hW64 hw]

theorem sampleMath_ToUInt64_t (n : ℕ) (hn : n < 2 ^ 64) :
    sampleMath.ToUInt64_t (n : ℚ) = .ok n := by
  have h : n < 18446744073709551616 := by norm_num at hn; exact hn
  simp [sampleMath, h]

/-- Witness of C2: the byte `0b10000001` at width 8 with the sample library. -/
theorem rotateRight_rotateLeft_witness :
    (SciCalcFunctions sampleMath sampleResources
      (SciCalcFunctions sampleMath sampleResources sampleByteEngine ((129 : ℕ) : ℚ) .IDC_ROL).2
      (SciCalcFunctions sampleMath sampleResources sampleByteEngine ((129 : ℕ) : ℚ) .IDC_ROL).1
      .IDC_ROR).1 = ((129 : ℕ) : ℚ) :=
  rotateRight_rotateLeft sampleMath sampleResources sampleByteEngine 129 rfl
    (by decide) (by decide) (by decide) sampleMath_ToUInt64_t

/-- The evaluator on `IDC_DMS` outside integer mode. -/
theorem SciCalcFunctions_DMS (M : RationalMath) (R : Resources) (c : CCalcEngine)
    (rat : Rational) (hInt : c.m_fIntegerMode = false) :
    SciCalcFunctions M R c rat .IDC_DMS = (dmsConvert c.m_bInv rat, c) := by
  simp [SciCalcFunctions, SciCalcFunctions.tryBlock, hInt]

/-- C3: outside integer mode, for every rational `x`, applying `IDC_DMS` with the
inverse flag unset (encoding) and then `IDC_DMS` to the result with the inverse flag
set (decoding) returns exactly `x`. -/
theorem dms_encode_then_decode (M : RationalMath) (R : Resources) (c : CCalcEngine)
    (x : Rational) (hInt : c.m_fIntegerMode = false) :
    (SciCalcFunctions M R
      { (SciCalcFunctions M R { c with m_bInv := false } x .IDC_DMS).2 with m_bInv := true }
      (SciCalcFunctions M R { c with m_bInv := false } x .IDC_DMS).1 .IDC_DMS).1 = x := by
  have h1 : SciCalcFunctions M R { c with m_bInv := false } x .IDC_DMS
      = (dmsConvert false x, { c with m_bInv := false }) :=
    SciCalcFunctions_DMS M R _ x hInt
  rw [h1]
  have h2 : SciCalcFunctions M R { c with m_bInv := true } (dmsConvert false x) .IDC_DMS
      = (dmsConvert true (dmsConvert false x), { c with m_bInv := true }) :=
    SciCalcFunctions_DMS M R _ _ hInt
  show (SciCalcFunctions M R { c with m_bInv := true } (dmsConvert false x) .IDC_DMS).1 = x
  rw [h2]
  exact dms_roundtrip x

/-- Witness of C3: the value `-7/3` in the sample engine. -/
theorem dms_encode_then_decode_witness :
    (SciCalcFunctions sampleMath sampleResources
      { (SciCalcFunctions sampleMath sampleResources
          { sampleEngine with m_bInv := false } (-7 / 3) .IDC_DMS).2 with m_bInv := true }
      (SciCalcFunctions sampleMath sampleResources
          { sampleEngine with m_bInv := false } (-7 / 3) .IDC_DMS).1 .IDC_DMS).1 = -7 / 3 :=
  dms_encode_then_decode sampleMath sampleResources sampleEngine (-7 / 3) rfl

/-- The evaluator on `IDC_COM` in radix 10 outside integer mode. -/
theorem SciCalcFunctions_COM_decimal (M : RationalMath) (R : Resources) (c : CCalcEngine)
    (rat : Rational) (hRadix : c.m_radix = 10) (hInt : c.m_fIntegerMode = false) :
    SciCalcFunctions M R c rat .IDC_COM = (-(Integer rat + 1), c) := by
  simp [SciCalcFunctions, SciCalcFunctions.tryBlock, hInt, hRadix]

/-- Counterexample to C4 as stated: in radix 10 outside integer mode the complement of
`-1/2` is `-1`, whereas `-(floor (-1/2) + 1)` is `0`. -/
theorem complement_decimal_floor_counterexample :
    (SciCalcFunctions sampleMath sampleResources sampleEngine (-1 / 2) .IDC_COM).1 = -1 ∧
    -(((⌊(-1 / 2 : ℚ)⌋ : ℤ) : ℚ) + 1) = 0 ∧
    (SciCalcFunctions sampleMath sampleResources sampleEngine (-1 / 2) .IDC_COM).1
      ≠ -(((⌊(-1 / 2 : ℚ)⌋ : ℤ) : ℚ) + 1) := by
  have hI : Integer (-1 / 2) = 0 := by
    have h := Integer_add_frac 0 (1 / 2) le_rfl (by norm_num) (by norm_num)
    have e : (-1 / 2 : ℚ) = -(((0 : ℤ) : ℚ) + 1 / 2) := by norm_num
    rw [e, Integer_neg, h]; simp
  have hF : ⌊(-1 / 2 : ℚ)⌋ = -1 := by
    rw [Int.floor_eq_iff]; constructor <;> norm_num
  rw [SciCalcFunctions_COM_decimal sampleMath sampleResources sampleEngine _ rfl rfl, hI, hF]
  norm_num

/-- C4 (amended): in radix 10 outside integer mode the complement of `x` is
`-(t + 1)` where `t` is `x` rounded toward zero (`floor x` for `0 ≤ x`, `ceil x` for
`x < 0`); it equals `-(floor x + 1)` exactly when `x` is non-negative or an integer. -/
theorem complement_decimal_truncates (M : RationalMath) (R : Resources) (c : CCalcEngine)
    (x : Rational) (hRadix : c.m_radix = 10) (hInt : c.m_fIntegerMode = false) :
    (SciCalcFunctions M R c x .IDC_COM).1
      = -((((if 0 ≤ x then ⌊x⌋ else ⌈x⌉) : ℤ) : ℚ) + 1) ∧
    ((SciCalcFunctions M R c x .IDC_COM).1 = -(((⌊x⌋ : ℤ) : ℚ) + 1)
      ↔ (0 ≤ x ∨ ((⌊x⌋ : ℤ) : ℚ) = x)) := by
  rw [SciCalcFunctions_COM_decimal M R c x hRadix hInt]
  simp only
  by_cases hx : 0 ≤ x
  · rw [Integer_of_nonneg x hx]
    simp [hx]
  · have hx' : x ≤ 0 := le_of_lt (not_le.mp hx)
    rw [Integer_of_nonpos x hx']
    simp only [hx, if_false, false_or, true_and]
    constructor
    · intro h
      have h1 : ((⌈x⌉ : ℤ) : ℚ) = ((⌊x⌋ : ℤ) : ℚ) := by linarith
      have h2 := Int.le_ceil x
      have h3 := Int.floor_le x
      linarith
    · intro h
      have h1 : ⌈x⌉ = ⌊x⌋ := by
        rw [← h, Int.ceil_intCast, Int.floor_intCast]
      rw [h1]

/-- Witness of C4 (amended): the value `-1/2` in the sample engine. -/
theorem complement_decimal_truncates_witness :
    (SciCalcFunctions sampleMath sampleResources sampleEngine (-1 / 2) .IDC_COM).1
      = -((((if (0 : ℚ) ≤ -1 / 2 then ⌊(-1 / 2 : ℚ)⌋ else ⌈(-1 / 2 : ℚ)⌉) : ℤ) : ℚ) + 1) ∧
    ((SciCalcFunctions sampleMath sampleResources sampleEngine (-1 / 2) .IDC_COM).1
        = -(((⌊(-1 / 2 : ℚ)⌋ : ℤ) : ℚ) + 1)
      ↔ ((0 : ℚ) ≤ -1 / 2 ∨ ((⌊(-1 / 2 : ℚ)⌋ : ℤ) : ℚ) = -1 / 2)) :=
  complement_decimal_truncates sampleMath sampleResources sampleEngine (-1 / 2) rfl rfl

/-- Exclusive or with the all-ones mask of `W` bits is the complement within `W` bits. -/
theorem xor_mask_eq (w W : ℕ) (hw : w < 2 ^ W) : w ^^^ (2 ^ W - 1) = 2 ^ W - 1 - w := by
  have e : 2 ^ W - 1 - w = 2 ^ W - (w + 1) := by omega
  rw [e]
  apply Nat.eq_of_testBit_eq
  intro i
  rw [Nat.testBit_xor, Nat.testBit_two_pow_sub_one, Nat.testBit_two_pow_sub_succ hw]
  by_cases hi : i < W
  · simp [hi]
  · have hfalse : w.testBit i = false := by
      cases hc : w.testBit i
      · rfl
      · exact absurd (lt_of_testBit hw hc) hi
    simp [hi, hfalse]

/-- The evaluator on `IDC_COM` in integer mode, for a library whose exclusive or is the
bitwise one on natural numbers. -/
theorem SciCalcFunctions_COM_integer (M : RationalMath) (R : Resources) (c : CCalcEngine)
    (w m : ℕ) (hInt : c.m_fIntegerMode = true)
    (hmask : c.m_chopNumbers c.m_numwidth = ((m : ℕ) : ℚ))
    (hxor : ∀ a b : ℕ, M.Xor (a : ℚ) (b : ℚ) = .ok ((a ^^^ b : ℕ) : ℚ)) :
    SciCalcFunctions M R c (w : ℚ) .IDC_COM = (((w ^^^ m : ℕ) : ℚ), c) := by
  simp [SciCalcFunctions, SciCalcFunctions.tryBlock, hInt, hmask, hxor]

/-- C5: in integer mode, for a word of `W` bits (the mask selected by the engine is
the all-ones mask `2 ^ W - 1`) and an integer `w` with `0 ≤ w < 2 ^ W`, the
complement operator yields the complement of `w` within `W` bits, and applying it
twice with the engine record unchanged returns `w`, for every library whose
exclusive or is the bitwise one on natural numbers. -/
theorem complement_integer_involutive (M : RationalMath) (R : Resources) (c : CCalcEngine)
    (W w : ℕ) (hInt : c.m_fIntegerMode = true)
    (hmask : c.m_chopNumbers c.m_numwidth = ((2 ^ W - 1 : ℕ) : ℚ)) (hw : w < 2 ^ W)
    (hxor : ∀ a b : ℕ, M.Xor (a : ℚ) (b : ℚ) = .ok ((a ^^^ b : ℕ) : ℚ)) :
    (SciCalcFunctions M R c (w : ℚ) .IDC_COM).1 = ((2 ^ W - 1 - w : ℕ) : ℚ) ∧
    (SciCalcFunctions M R c (w : ℚ) .IDC_COM).2.m_chopNumbers = c.m_chopNumbers ∧
    (SciCalcFunctions M R c (w : ℚ) .IDC_COM).2.m_numwidth = c.m_numwidth ∧
    (SciCalcFunctions M R (SciCalcFunctions M R c (w : ℚ) .IDC_COM).2
      (SciCalcFunctions M R c (w : ℚ) .IDC_COM).1 .IDC_COM).1 = (w : ℚ) := by
  rw [SciCalcFunctions_COM_integer M R c w (2 ^ W - 1) hInt hmask hxor]
  refine ⟨by rw [xor_mask_eq w W hw], rfl, rfl, ?_⟩
  simp only
  rw [SciCalcFunctions_COM_integer M R c _ (2 ^ W - 1) hInt hmask hxor]
  simp only
  rw [Nat.xor_cancel_right]

theorem sampleMath_Xor (a b : ℕ) :
    sampleMath.Xor (a : ℚ) (b : ℚ) = .ok ((a ^^^ b : ℕ) : ℚ) := by
  simp [sampleMath]

/-- Witness of C5: the byte `0b10000001` in the byte-wide sample engine. -/
theorem complement_integer_involutive_witness :
    (SciCalcFunctions sampleMath sampleResources sampleByteEngine ((129 : ℕ) : ℚ) .IDC_COM).1
      = ((2 ^ 8 - 1 - 129 : ℕ) : ℚ) ∧
    (SciCalcFunctions sampleMath sampleResources sampleByteEngine
      ((129 : ℕ) : ℚ) .IDC_COM).2.m_chopNumbers = sampleByteEngine.m_chopNumbers ∧
    (SciCalcFunctions sampleMath sampleResources sampleByteEngine
      ((129 : ℕ) : ℚ) .IDC_COM).2.m_numwidth = sampleByteEngine.m_numwidth ∧
    (SciCalcFunctions sampleMath sampleResources
      (SciCalcFunctions sampleMath sampleResources sampleByteEngine ((129 : ℕ) : ℚ) .IDC_COM).2
      (SciCalcFunctions sampleMath sampleResources sampleByteEngine ((129 : ℕ) : ℚ) .IDC_COM).1
      .IDC_COM).1 = ((129 : ℕ) : ℚ) :=
  complement_integer_involutive sampleMath sampleResources sampleByteEngine 8 129 rfl
    (by simp [sampleByteEngine, sampleEngine]) (by decide) sampleMath_Xor

/-- C6: when the pending binary operator is multiply or divide, the percent operator
applied to `x` returns `x / 100`, whatever the last operand is. -/
theorem percent_of_mul_div (M : RationalMath) (R : Resources) (c : CCalcEngine)
    (x lastVal : Rational)
    (hop : c.m_nOpCode = .IDC_MUL ∨ c.m_nOpCode = .IDC_DIV) :
    (SciCalcFunctions M R { c with m_lastVal := lastVal } x .IDC_PERCENT).1 = x / 100 := by
  simp [SciCalcFunctions, SciCalcFunctions.tryBlock, hop]

/-- Witness of C6: `50 %` with multiply pending and last operand `7`. -/
theorem percent_of_mul_div_witness :
    (SciCalcFunctions sampleMath sampleResources
      { ({ sampleEngine with m_nOpCode := .IDC_MUL } : CCalcEngine) with m_lastVal := 7 }
      50 .IDC_PERCENT).1 = 50 / 100 :=
  percent_of_mul_div sampleMath sampleResources
    { sampleEngine with m_nOpCode := .IDC_MUL } 50 7 (Or.inl rfl)

/-- C7: when the pending binary operator is neither multiply nor divide, the percent
operator applied to `y` with last operand `x` returns exactly `x * y / 100`. -/
theorem percent_of_other (M : RationalMath) (R : Resources) (c : CCalcEngine)
    (y : Rational) (hmul : c.m_nOpCode ≠ .IDC_MUL) (hdiv : c.m_nOpCode ≠ .IDC_DIV) :
    (SciCalcFunctions M R c y .IDC_PERCENT).1 = c.m_lastVal * y / 100 := by
  simp only [SciCalcFunctions, SciCalcFunctions.tryBlock, hmul, hdiv, or_self, if_false]
  ring

/-- Witness of C7: `10 %` with last operand `200` and no multiply or divide pending. -/
theorem percent_of_other_witness :
    (SciCalcFunctions sampleMath sampleResources
      { sampleEngine with m_lastVal := 200 } 10 .IDC_PERCENT).1
      = ({ sampleEngine with m_lastVal := 200 } : CCalcEngine).m_lastVal * 10 / 100 :=
  percent_of_other sampleMath sampleResources { sampleEngine with m_lastVal := 200 } 10
    (by decide) (by decide)

/-- The evaluator on `IDC_ROL` in integer mode, when the conversion of the operand
succeeds. -/
theorem SciCalcFunctions_ROL (M : RationalMath) (R : Resources) (c : CCalcEngine)
    (w : ℕ) (hInt : c.m_fIntegerMode = true)
    (hconv : M.ToUInt64_t ((w : ℕ) : ℚ) = .ok w) :
    SciCalcFunctions M R c ((w : ℕ) : ℚ) .IDC_ROL
      = (((rotateLeft64 w c.m_dwWordBitWidth : ℕ) : ℚ), c) := by
  have h : (SciCalcFunctions.tryBlock M c ((w : ℕ) : ℚ) .IDC_ROL).2
      = .ok ((rotateLeft64 w c.m_dwWordBitWidth : ℕ) : ℚ) := by
    simp only [SciCalcFunctions.tryBlock, hInt, if_true, Integer_natCast, hconv]
    rfl
  rw [SciCalcFunctions_of_ok M R c _ _ _ h, tryBlock_fst]
  simp

/-- Counterexample to C8 as stated: in integer mode at width 8 the rotate-left of
`0b10000001` is `259 = 0b100000011`, not `3`. -/
theorem rotateLeft_byte_counterexample :
    (SciCalcFunctions sampleMath sampleResources sampleByteEngine ((129 : ℕ) : ℚ) .IDC_ROL).1
      = 259 ∧
    (SciCalcFunctions sampleMath sampleResources sampleByteEngine ((129 : ℕ) : ℚ) .IDC_ROL).1
      ≠ 3 := by
  rw [SciCalcFunctions_ROL sampleMath sampleResources sampleByteEngine 129 rfl
    (sampleMath_ToUInt64_t 129 (by norm_num))]
  have h : rotateLeft64 129 sampleByteEngine.m_dwWordBitWidth = 259 := by decide
  rw [h]
  norm_num

/-- C8 (amended): in integer mode at width 8 the rotate-left of `0b10000001` (129)
returns `0b100000011` (259): the bit rotated out stays at position 8, and the low
8 bits of the result are `0b00000011` (3). This holds for every library that
converts 129 exactly. -/
theorem rotateLeft_byte (M : RationalMath) (R : Resources) (c : CCalcEngine)
    (hInt : c.m_fIntegerMode = true) (hW : c.m_dwWordBitWidth = 8)
    (hconv : M.ToUInt64_t ((129 : ℕ) : ℚ) = .ok 129) :
    ∃ n : ℕ, (SciCalcFunctions M R c ((129 : ℕ) : ℚ) .IDC_ROL).1 = (n : ℚ) ∧
      n = 259 ∧ n % 2 ^ 8 = 3 := by
  refine ⟨rotateLeft64 129 c.m_dwWordBitWidth, ?_, ?_, ?_⟩
  · rw [SciCalcFunctions_ROL M R c 129 hInt hconv]
  · rw [hW]; decide
  · rw [hW]; decide

/-- Witness of C8 (amended): the byte-wide sample engine with the sample library. -/
theorem rotateLeft_byte_witness :
    ∃ n : ℕ, (SciCalcFunctions sampleMath sampleResources sampleByteEngine
        ((129 : ℕ) : ℚ) .IDC_ROL).1 = (n : ℚ) ∧
      n = 259 ∧ n % 2 ^ 8 = 3 :=
  rotateLeft_byte sampleMath sampleResources sampleByteEngine rfl rfl
    (sampleMath_ToUInt64_t 129 (by norm_num))

/-- Counterexample to C9 as stated: decoding `30.5025` gives `30 + 50/60 + 25/3600`
(the packed value reads 30 degrees, 50 minutes, 25 seconds), which is not
`30 + 30/60 + 25/3600`. -/
theorem dms_decode_counterexample :
    (SciCalcFunctions sampleMath sampleResources { sampleEngine with m_bInv := true }
      (305025 / 10000) .IDC_DMS).1 = 30 + 50 / 60 + 25 / 3600 ∧
    (SciCalcFunctions sampleMath sampleResources { sampleEngine with m_bInv := true }
      (305025 / 10000) .IDC_DMS).1 ≠ 30 + 30 / 60 + 25 / 3600 := by
  rw [SciCalcFunctions_DMS sampleMath sampleResources { sampleEngine with m_bInv := true }
    _ rfl]
  show dmsConvert true (305025 / 10000) = _ ∧ dmsConvert true (305025 / 10000) ≠ _
  rw [dmsConvert_decode_30_5025]
  norm_num

/-- C9 (amended): outside integer mode, the degree-minute-second operator applied as a
decode (inverse flag set) to `30.5025` returns exactly `30 + 50/60 + 25/3600`. -/
theorem dms_decode_30_5025 (M : RationalMath) (R : Resources) (c : CCalcEngine)
    (hInt : c.m_fIntegerMode = false) (hInv : c.m_bInv = true) :
    (SciCalcFunctions M R c (305025 / 10000) .IDC_DMS).1 = 30 + 50 / 60 + 25 / 3600 := by
  rw [SciCalcFunctions_DMS M R c _ hInt, hInv]
  exact dmsConvert_decode_30_5025

/-- Witness of C9 (amended): the sample engine with the inverse flag set. -/
theorem dms_decode_30_5025_witness :
    (SciCalcFunctions sampleMath sampleResources { sampleEngine with m_bInv := true }
      (305025 / 10000) .IDC_DMS).1 = 30 + 50 / 60 + 25 / 3600 :=
  dms_decode_30_5025 sampleMath sampleResources { sampleEngine with m_bInv := true } rfl rfl

/-- C10: the factorial operator does not read the inverse flag: setting the flag of
any engine record to any value leaves the returned value, the error flag, and what
the display and the history collector receive unchanged; in particular, for a library
whose factorial of 5 is 120, the operator yields 120 with the flag set and with it
unset. -/
theorem factorial_ignores_inverse (M : RationalMath) (R : Resources) (c : CCalcEngine)
    (x : Rational) (b : Bool) :
    (SciCalcFunctions M R { c with m_bInv := b } x .IDC_FAC).1
      = (SciCalcFunctions M R c x .IDC_FAC).1 ∧
    (SciCalcFunctions M R { c with m_bInv := b } x .IDC_FAC).2.m_bError
      = (SciCalcFunctions M R c x .IDC_FAC).2.m_bError ∧
    (SciCalcFunctions M R { c with m_bInv := b } x .IDC_FAC).2.m_primaryDisplay
      = (SciCalcFunctions M R c x .IDC_FAC).2.m_primaryDisplay ∧
    (SciCalcFunctions M R { c with m_bInv := b } x .IDC_FAC).2.m_HistoryCollector
      = (SciCalcFunctions M R c x .IDC_FAC).2.m_HistoryCollector ∧
    (M.Fact 5 = .ok 120 →
      (SciCalcFunctions M R { c with m_bInv := true } 5 .IDC_FAC).1 = 120 ∧
      (SciCalcFunctions M R { c with m_bInv := false } 5 .IDC_FAC).1 = 120) := by
  refine ⟨?_, ?_, ?_, ?_, ?_⟩
  · cases h : M.Fact x <;> simp [SciCalcFunctions, SciCalcFunctions.tryBlock, h]
  · cases h : M.Fact x <;> simp [SciCalcFunctions, SciCalcFunctions.tryBlock, h, DisplayError]
  · cases h : M.Fact x <;> simp [SciCalcFunctions, SciCalcFunctions.tryBlock, h, DisplayError]
  · cases h : M.Fact x <;> simp [SciCalcFunctions, SciCalcFunctions.tryBlock, h, DisplayError]
  · intro h
    simp [SciCalcFunctions, SciCalcFunctions.tryBlock, h]

theorem sampleMath_Fact_five : sampleMath.Fact 5 = .ok 120 := by
  simp [sampleMath, Nat.factorial]

/-- Witness of C10: factorial of 5 in the sample engine with the sample library. -/
theorem factorial_ignores_inverse_witness :
    (SciCalcFunctions sampleMath sampleResources { sampleEngine with m_bInv := true } 5
      .IDC_FAC).1 = 120 ∧
    (SciCalcFunctions sampleMath sampleResources { sampleEngine with m_bInv := false } 5
      .IDC_FAC).1 = 120 :=
  (factorial_ignores_inverse sampleMath sampleResources sampleEngine 5 true).2.2.2.2
    sampleMath_Fact_five

/-! ## Rotation as a cyclic shift -/

theorem rotateRight64_eq (w W : ℕ) (hW1 : 1 ≤ W) (hW : W ≤ 64) (hw : w < 2 ^ W) :
    rotateRight64 w W = 2 ^ (W - 1) * (w % 2) + w / 2 := by
  have hw64 : w < 2 ^ 64 := lt_of_lt_of_le hw (Nat.pow_le_pow_right (by norm_num) hW)
  have hhalf : w / 2 < 2 ^ (W - 1) := by
    rw [Nat.div_lt_iff_lt_mul (by norm_num)]
    calc w < 2 ^ W := hw
      _ = 2 ^ (W - 1 + 1) := by rw [Nat.sub_add_cancel hW1]
      _ = 2 ^ (W - 1) * 2 := by rw [pow_succ]
  have hp : 2 ^ (W - 1) < 2 ^ 64 := Nat.pow_lt_pow_right (by norm_num) (by omega)
  have hlsb : (if w % 2 = 1 then 1 else 0) = w % 2 := by
    rcases Nat.mod_two_eq_zero_or_one w with h | h <;> simp [h]
  simp only [rotateRight64]
  rw [Nat.mod_eq_of_lt hw64, Nat.and_one_is_mod, Nat.shiftRight_eq_div_pow, pow_one,
    Nat.shiftLeft_eq, hlsb, Nat.mul_add_lt_is_or hhalf, Nat.lor_comm, Nat.mul_comm]
  congr 1
  rcases Nat.mod_two_eq_zero_or_one w with h | h
  · simp [h]
  · rw [h, Nat.mul_one, Nat.mod_eq_of_lt hp]

theorem rotateRight64_lt (w W : ℕ) (hW1 : 1 ≤ W) (hW : W ≤ 64) (hw : w < 2 ^ W) :
    rotateRight64 w W < 2 ^ W := by
  rw [rotateRight64_eq w W hW1 hW hw]
  have hhalf : w / 2 < 2 ^ (W - 1) := by
    rw [Nat.div_lt_iff_lt_mul (by norm_num)]
    calc w < 2 ^ W := hw
      _ = 2 ^ (W - 1 + 1) := by rw [Nat.sub_add_cancel hW1]
      _ = 2 ^ (W - 1) * 2 := by rw [pow_succ]
  have hpow : 2 ^ W = 2 ^ (W - 1) * 2 := by
    calc 2 ^ W = 2 ^ (W - 1 + 1) := by rw [Nat.sub_add_cancel hW1]
      _ = 2 ^ (W - 1) * 2 := by rw [pow_succ]
  have hb : w % 2 ≤ 1 := by omega
  have : 2 ^ (W - 1) * (w % 2) ≤ 2 ^ (W - 1) * 1 := Nat.mul_le_mul_left _ hb
  omega

theorem rotateRight64_testBit (w W i : ℕ) (hW1 : 1 ≤ W) (hW : W ≤ 64) (hw : w < 2 ^ W)
    (hi : i < W) : (rotateRight64 w W).testBit i = w.testBit ((i + 1) % W) := by
  have hhalf : w / 2 < 2 ^ (W - 1) := by
    rw [Nat.div_lt_iff_lt_mul (by norm_num)]
    calc w < 2 ^ W := hw
      _ = 2 ^ (W - 1 + 1) := by rw [Nat.sub_add_cancel hW1]
      _ = 2 ^ (W - 1) * 2 := by rw [pow_succ]
  rw [rotateRight64_eq w W hW1 hW hw, Nat.testBit_mul_pow_two_add _ hhalf]
  by_cases h : i < W - 1
  · rw [if_pos h, Nat.testBit_div_two, Nat.mod_eq_of_lt (by omega)]
  · have hiW : i = W - 1 := by omega
    rw [if_neg h, hiW, Nat.sub_self, Nat.sub_add_cancel hW1, Nat.mod_self]
    rcases Nat.mod_two_eq_zero_or_one w with hb | hb
    · simp [hb, Nat.testBit_zero]
    · simp [hb, Nat.testBit_zero]

theorem rotateLeft64_testBit_zero (w W : ℕ) (hW1 : 1 ≤ W) (hW : W ≤ 64) (hw : w < 2 ^ W) :
    (rotateLeft64 w W).testBit 0 = w.testBit (W - 1) := by
  rw [rotateLeft64_eq w W hW1 hW hw]
  have hb := msb_eq_testBit w W hW1 hw
  have hmsb := msb_lt_two w W hW1 hw
  rw [Nat.testBit_zero]
  cases hc : w.testBit (W - 1)
  · rw [hc] at hb
    simp only [Bool.toNat_false] at hb
    rw [hb]
    simp
  · rw [hc] at hb
    simp only [Bool.toNat_true] at hb
    rw [hb]
    simp
    omega

theorem rotateLeft64_testBit_succ (w W i : ℕ) (hW1 : 1 ≤ W) (hW : W ≤ 64) (hw : w < 2 ^ W)
    (hi : i < 63) : (rotateLeft64 w W).testBit (i + 1) = w.testBit i := by
  rw [rotateLeft64_eq w W hW1 hW hw]
  have hmsb := msb_lt_two w W hW1 hw
  rw [← Nat.testBit_div_two]
  have h2 : ∀ a b : ℕ, b < 2 → (2 * a + b) / 2 = a := by
    intro a b hb; omega
  rw [h2 _ _ hmsb]
  rw [Nat.testBit_mod_two_pow]
  simp [hi]

/-! ## Packed degree-minute-second values -/

theorem dmsConvert_decode_packed (d m : ℤ) (s : ℚ) (hd : 0 ≤ d) (hm0 : 0 ≤ m) (hm : m < 60)
    (hs0 : 0 ≤ s) (hs : s < 60) :
    dmsConvert true ((d : ℚ) + (m : ℚ) / 100 + s / 10000)
      = (d : ℚ) + (m : ℚ) / 60 + s / 3600 := by
  have hmq0 : (0 : ℚ) ≤ (m : ℚ) := by exact_mod_cast hm0
  have hmq : (m : ℚ) ≤ 59 := by
    have : m ≤ 59 := by omega
    exact_mod_cast this
  have e0 : (d : ℚ) + (m : ℚ) / 100 + s / 10000 = (d : ℚ) + ((m : ℚ) / 100 + s / 10000) := by
    ring
  have h1 : Integer ((d : ℚ) + (m : ℚ) / 100 + s / 10000) = d := by
    rw [e0]
    exact Integer_add_frac d _ hd (by positivity) (by linarith)
  have e1 : ((d : ℚ) + (m : ℚ) / 100 + s / 10000 - d) * 100 = (m : ℚ) + s / 100 := by ring
  have h2 : Integer ((m : ℚ) + s / 100) = m :=
    Integer_add_frac m _ hm0 (by positivity) (by linarith)
  simp only [dmsConvert, if_true]
  rw [h1, e1, h2]
  ring

theorem dmsConvert_encode_unpacked (d m : ℤ) (s : ℚ) (hd : 0 ≤ d) (hm0 : 0 ≤ m) (hm : m < 60)
    (hs0 : 0 ≤ s) (hs : s < 60) :
    dmsConvert false ((d : ℚ) + (m : ℚ) / 60 + s / 3600)
      = (d : ℚ) + (m : ℚ) / 100 + s / 10000 := by
  have hmq0 : (0 : ℚ) ≤ (m : ℚ) := by exact_mod_cast hm0
  have hmq : (m : ℚ) ≤ 59 := by
    have : m ≤ 59 := by omega
    exact_mod_cast this
  have e0 : (d : ℚ) + (m : ℚ) / 60 + s / 3600 = (d : ℚ) + ((m : ℚ) / 60 + s / 3600) := by
    ring
  have h1 : Integer ((d : ℚ) + (m : ℚ) / 60 + s / 3600) = d := by
    rw [e0]
    exact Integer_add_frac d _ hd (by positivity) (by linarith)
  have e1 : ((d : ℚ) + (m : ℚ) / 60 + s / 3600 - d) * 60 = (m : ℚ) + s / 60 := by ring
  have h2 : Integer ((m : ℚ) + s / 60) = m :=
    Integer_add_frac m _ hm0 (by positivity) (by linarith)
  simp only [dmsConvert, Bool.false_eq_true, if_false]
  rw [h1, e1, h2]
  ring

/-- Parts of the packed value produced by the encoding of a non-negative value. -/
theorem dms_encode_parts_nonneg (x : ℚ) (hx : 0 ≤ x) :
    ∃ m : ℤ, ∃ s : ℚ, 0 ≤ m ∧ m ≤ 59 ∧ 0 ≤ s ∧ s < 60 ∧
      dmsConvert false x = Integer x + ((m : ℚ) / 100 + s / 10000) := by
  obtain ⟨_, hf0, hf1⟩ := Integer_floor_fract x hx
  set f := x - Integer x with hf
  have hm0 : 0 ≤ f * 60 := by positivity
  obtain ⟨hmn, hg0, hg1⟩ := Integer_floor_fract (f * 60) hm0
  have hIm := Integer_of_nonneg (f * 60) hm0
  have h60 : ⌊f * 60⌋ < 60 := by
    rw [Int.floor_lt]; push_cast; linarith
  refine ⟨⌊f * 60⌋, (f * 60 - Integer (f * 60)) * 60, hmn, by omega, by positivity,
    by linarith, ?_⟩
  simp only [dmsConvert, Bool.false_eq_true, if_false]
  rw [← hf, hIm]
  ring

theorem dms_encode_wellformed (x : ℚ) :
    Integer (dmsConvert false x) = Integer x ∧
    ∃ m : ℤ, ∃ s : ℚ, 0 ≤ m ∧ m ≤ 59 ∧ 0 ≤ s ∧ s < 60 ∧
      |dmsConvert false x - Integer (dmsConvert false x)| = (m : ℚ) / 100 + s / 10000 ∧
      |dmsConvert false x - Integer (dmsConvert false x)| < 596 / 1000 := by
  have key : ∀ y : ℚ, 0 ≤ y →
      Integer (dmsConvert false y) = Integer y ∧
      ∃ m : ℤ, ∃ s : ℚ, 0 ≤ m ∧ m ≤ 59 ∧ 0 ≤ s ∧ s < 60 ∧
        dmsConvert false y - Integer (dmsConvert false y) = (m : ℚ) / 100 + s / 10000 ∧
        0 ≤ (m : ℚ) / 100 + s / 10000 ∧ (m : ℚ) / 100 + s / 10000 < 596 / 1000 := by
    intro y hy
    obtain ⟨m, s, hm0, hm, hs0, hs, henc⟩ := dms_encode_parts_nonneg y hy
    have hmq0 : (0 : ℚ) ≤ (m : ℚ) := by exact_mod_cast hm0
    have hmq : (m : ℚ) ≤ 59 := by exact_mod_cast hm
    have hIy := Integer_of_nonneg y hy
    have hfl : 0 ≤ ⌊y⌋ := Int.floor_nonneg.mpr hy
    have hI : Integer (dmsConvert false y) = Integer y := by
      rw [henc, hIy]
      exact Integer_add_frac ⌊y⌋ _ hfl (by positivity) (by linarith)
    refine ⟨hI, m, s, hm0, hm, hs0, hs, ?_, by positivity, by linarith⟩
    rw [hI, henc]; ring
  rcases le_total 0 x with hx | hx
  · obtain ⟨hI, m, s, hm0, hm, hs0, hs, he, h0, h1⟩ := key x hx
    refine ⟨hI, m, s, hm0, hm, hs0, hs, ?_, ?_⟩
    · rw [he, abs_of_nonneg h0]
    · rw [he, abs_of_nonneg h0]; exact h1
  · obtain ⟨hI, m, s, hm0, hm, hs0, hs, he, h0, h1⟩ := key (-x) (by linarith)
    rw [dmsConvert_neg, Integer_neg, Integer_neg] at hI
    rw [dmsConvert_neg, Integer_neg] at he
    have hI' : Integer (dmsConvert false x) = Integer x := by linarith
    have he' : dmsConvert false x - Integer (dmsConvert false x)
        = -((m : ℚ) / 100 + s / 10000) := by linarith
    refine ⟨hI', m, s, hm0, hm, hs0, hs, ?_, ?_⟩
    · rw [he', abs_neg, abs_of_nonneg h0]
    · rw [he', abs_neg, abs_of_nonneg h0]; exact h1

/-! ## The specified properties, continued -/

/-- C11: the degrees operator first toggles the inverse flag and then performs the
degree-minute-second conversion with the updated flag: its outcome (value and engine
record) is that of `IDC_DMS` in the record whose inverse flag is negated, the flag is
left negated, and outside integer mode the value is the conversion under the negated
flag. -/
theorem degrees_is_dms_after_toggle (M : RationalMath) (R : Resources) (c : CCalcEngine)
    (x : Rational) :
    SciCalcFunctions M R c x .IDC_DEGREES
      = SciCalcFunctions M R { c with m_bInv := !c.m_bInv } x .IDC_DMS ∧
    (SciCalcFunctions M R c x .IDC_DEGREES).2.m_bInv = !c.m_bInv ∧
    (SciCalcFunctions M R c x .IDC_DEGREES).1
      = if c.m_fIntegerMode = false then dmsConvert (!c.m_bInv) x else 0 := by
  refine ⟨rfl, ?_, ?_⟩
  · cases h : c.m_fIntegerMode <;>
      simp [SciCalcFunctions, SciCalcFunctions.tryBlock, ProcessCommand, h]
  · cases h : c.m_fIntegerMode <;>
      simp [SciCalcFunctions, SciCalcFunctions.tryBlock, ProcessCommand, h]

/-- Counterexample to C12 as stated: in integer mode the sine operator applied to `1`
returns `0`, not `1`. -/
theorem trig_integer_mode_counterexample :
    (SciCalcFunctions sampleMath sampleResources sampleByteEngine 1 .IDC_SIN).1 = 0 ∧
    (SciCalcFunctions sampleMath sampleResources sampleByteEngine 1 .IDC_SIN).1 ≠ 1 := by
  have h : SciCalcFunctions sampleMath sampleResources sampleByteEngine 1 .IDC_SIN
      = (0, sampleByteEngine) := rfl
  rw [h]
  norm_num

/-- C12 (amended): in integer mode the sine, cosine, tangent, hyperbolic sine, cosine
and tangent operators and the degree-minute-second conversion do not evaluate
anything: for every operand and either value of the inverse flag the `try` block
completes without an error, the evaluator returns the default value `0`, and the
engine record is left as it was. -/
theorem trig_integer_mode_default (M : RationalMath) (R : Resources) (c : CCalcEngine)
    (x : Rational) (op : OpCode) (hInt : c.m_fIntegerMode = true)
    (hop : op = .IDC_SIN ∨ op = .IDC_COS ∨ op = .IDC_TAN ∨ op = .IDC_SINH ∨ op = .IDC_COSH ∨
      op = .IDC_TANH ∨ op = .IDC_DMS) :
    SciCalcFunctions.tryBlock M c x op = (c, .ok 0) ∧
    SciCalcFunctions M R c x op = (0, c) := by
  rcases hop with h | h | h | h | h | h | h <;> subst h <;>
    simp [SciCalcFunctions, SciCalcFunctions.tryBlock, hInt]

/-- Witness of C12 (amended): the sine of `1` in the byte-wide integer-mode engine. -/
theorem trig_integer_mode_default_witness :
    SciCalcFunctions.tryBlock sampleMath sampleByteEngine 1 .IDC_SIN
      = (sampleByteEngine, .ok 0) ∧
    SciCalcFunctions sampleMath sampleResources sampleByteEngine 1 .IDC_SIN
      = (0, sampleByteEngine) :=
  trig_integer_mode_default sampleMath sampleResources sampleByteEngine 1 .IDC_SIN rfl
    (Or.inl rfl)

/-- C13: the error display driver is idempotent on the visible state: after calling it
twice with code `n` the message last pushed to the primary display and the error flag
are the same as after calling it once; that message is the text of code `n`, flagged
as an error, and the error flag is true whatever it was before. -/
theorem DisplayError_idempotent (R : Resources) (s : CCalcEngine) (n : DWORD) :
    (DisplayError R (DisplayError R s n) n).m_primaryDisplay.getLast?
      = (DisplayError R s n).m_primaryDisplay.getLast? ∧
    (DisplayError R s n).m_primaryDisplay.getLast?
      = some (R.GetString (R.IDS_ERRORS_FIRST + R.SCODE_CODE n), true) ∧
    (DisplayError R (DisplayError R s n) n).m_bError = (DisplayError R s n).m_bError ∧
    (DisplayError R s n).m_bError = true := by
  simp [DisplayError]

/-- The evaluator on `IDC_ROR` in integer mode, when the conversion of the operand
succeeds. -/
theorem SciCalcFunctions_ROR (M : RationalMath) (R : Resources) (c : CCalcEngine)
    (w : ℕ) (hInt : c.m_fIntegerMode = true)
    (hconv : M.ToUInt64_t ((w : ℕ) : ℚ) = .ok w) :
    SciCalcFunctions M R c ((w : ℕ) : ℚ) .IDC_ROR
      = (((rotateRight64 w c.m_dwWordBitWidth : ℕ) : ℚ), c) := by
  have h : (SciCalcFunctions.tryBlock M c ((w : ℕ) : ℚ) .IDC_ROR).2
      = .ok ((rotateRight64 w c.m_dwWordBitWidth : ℕ) : ℚ) := by
    simp only [SciCalcFunctions.tryBlock, hInt, if_true, Integer_natCast, hconv]
    rfl
  rw [SciCalcFunctions_of_ok M R c _ _ _ h, tryBlock_fst]
  simp

/-- C14: in integer mode, for a word width `W` between 1 and 64 and `0 ≤ w < 2 ^ W`,
the rotate-right operator returns the `W`-bit cyclic right rotation of `w`: the value
is `w / 2` with bit 0 of `w` placed at position `W - 1`, it is again below `2 ^ W`,
and its bit `i` is bit `(i + 1) mod W` of `w`. Stated for every library that converts
`w` exactly. -/
theorem rotateRight_cyclic (M : RationalMath) (R : Resources) (c : CCalcEngine)
    (w : ℕ) (hInt : c.m_fIntegerMode = true)
    (hW1 : 1 ≤ c.m_dwWordBitWidth) (hW64 : c.m_dwWordBitWidth ≤ 64)
    (hw : w < 2 ^ c.m_dwWordBitWidth)
    (hconv : M.ToUInt64_t ((w : ℕ) : ℚ) = .ok w) :
    ∃ n : ℕ, (SciCalcFunctions M R c ((w : ℕ) : ℚ) .IDC_ROR).1 = (n : ℚ) ∧
      n = 2 ^ (c.m_dwWordBitWidth - 1) * (w % 2) + w / 2 ∧
      n = (w >>> 1) ||| ((w % 2) <<< (c.m_dwWordBitWidth - 1)) ∧
      n < 2 ^ c.m_dwWordBitWidth ∧
      ∀ i, i < c.m_dwWordBitWidth →
        n.testBit i = w.testBit ((i + 1) % c.m_dwWordBitWidth) := by
  have hhalf : w / 2 < 2 ^ (c.m_dwWordBitWidth - 1) := by
    rw [Nat.div_lt_iff_lt_mul (by norm_num)]
    calc w < 2 ^ c.m_dwWordBitWidth := hw
      _ = 2 ^ (c.m_dwWordBitWidth - 1 + 1) := by rw [Nat.sub_add_cancel hW1]
      _ = 2 ^ (c.m_dwWordBitWidth - 1) * 2 := by rw [pow_succ]
  refine ⟨rotateRight64 w c.m_dwWordBitWidth, ?_, ?_, ?_, ?_, ?_⟩
  · rw [SciCalcFunctions_ROR M R c w hInt hconv]
  · exact rotateRight64_eq w _ hW1 hW64 hw
  · rw [rotateRight64_eq w _ hW1 hW64 hw, Nat.mul_add_lt_is_or hhalf, Nat.lor_comm,
      Nat.shiftRight_eq_div_pow, pow_one, Nat.shiftLeft_eq, Nat.mul_comm]
  · exact rotateRight64_lt w _ hW1 hW64 hw
  · intro i hi
    exact rotateRight64_testBit w _ i hW1 hW64 hw hi

/-- Witness of C14: the byte `0b10000001` at width 8 with the sample library. -/
theorem rotateRight_cyclic_witness :
    ∃ n : ℕ, (SciCalcFunctions sampleMath sampleResources sampleByteEngine
        ((129 : ℕ) : ℚ) .IDC_ROR).1 = (n : ℚ) ∧
      n = 2 ^ (sampleByteEngine.m_dwWordBitWidth - 1) * (129 % 2) + 129 / 2 ∧
      n = (129 >>> 1) ||| ((129 % 2) <<< (sampleByteEngine.m_dwWordBitWidth - 1)) ∧
      n < 2 ^ sampleByteEngine.m_dwWordBitWidth ∧
      ∀ i, i < sampleByteEngine.m_dwWordBitWidth →
        n.testBit i = (129 : ℕ).testBit ((i + 1) % sampleByteEngine.m_dwWordBitWidth) :=
  rotateRight_cyclic sampleMath sampleResources sampleByteEngine 129 rfl
    (by decide) (by decide) (by decide) (sampleMath_ToUInt64_t 129 (by norm_num))

/-- C15: in integer mode, for a word width `W` between 1 and 64 and `0 ≤ w < 2 ^ W`,
the rotate-left operator returns `(2 * w mod 2 ^ 64) OR msb`, where `msb` is bit
`W - 1` of `w`. The value is not masked to `W` bits: for `W < 64` the bit rotated out
stays at position `W`, so the value is at least `2 ^ W` when that bit is set. Its low
`W` bits are the `W`-bit cyclic left rotation of `w`: bit `i` is bit
`(i + W - 1) mod W` of `w`. Stated for every library that converts `w` exactly. -/
theorem rotateLeft_unmasked (M : RationalMath) (R : Resources) (c : CCalcEngine)
    (w : ℕ) (hInt : c.m_fIntegerMode = true)
    (hW1 : 1 ≤ c.m_dwWordBitWidth) (hW64 : c.m_dwWordBitWidth ≤ 64)
    (hw : w < 2 ^ c.m_dwWordBitWidth)
    (hconv : M.ToUInt64_t ((w : ℕ) : ℚ) = .ok w) :
    ∃ n : ℕ, (SciCalcFunctions M R c ((w : ℕ) : ℚ) .IDC_ROL).1 = (n : ℚ) ∧
      n = (2 * w % 2 ^ 64) ||| (w.testBit (c.m_dwWordBitWidth - 1)).toNat ∧
      (∀ i, i < c.m_dwWordBitWidth →
        (n % 2 ^ c.m_dwWordBitWidth).testBit i
          = w.testBit ((i + c.m_dwWordBitWidth - 1) % c.m_dwWordBitWidth)) ∧
      (c.m_dwWordBitWidth < 64 →
        n.testBit c.m_dwWordBitWidth = w.testBit (c.m_dwWordBitWidth - 1)) ∧
      (c.m_dwWordBitWidth < 64 → w.testBit (c.m_dwWordBitWidth - 1) = true →
        2 ^ c.m_dwWordBitWidth ≤ n) := by
  have hw64 : w < 2 ^ 64 := lt_of_lt_of_le hw (Nat.pow_le_pow_right (by norm_num) hW64)
  have hmsb := msb_lt_two w _ hW1 hw
  have hbit : ∀ i, i < c.m_dwWordBitWidth →
      (rotateLeft64 w c.m_dwWordBitWidth).testBit i
        = w.testBit ((i + c.m_dwWordBitWidth - 1) % c.m_dwWordBitWidth) := by
    intro i hi
    cases i with
    | zero =>
      rw [rotateLeft64_testBit_zero w _ hW1 hW64 hw, Nat.zero_add,
        Nat.mod_eq_of_lt (by omega)]
    | succ j =>
      rw [rotateLeft64_testBit_succ w _ j hW1 hW64 hw (by omega)]
      have e : (j + 1 + c.m_dwWordBitWidth - 1) % c.m_dwWordBitWidth = j := by
        have e1 : j + 1 + c.m_dwWordBitWidth - 1 = j + c.m_dwWordBitWidth := by omega
        rw [e1, Nat.add_mod_right, Nat.mod_eq_of_lt (by omega)]
      rw [e]
  have hout : c.m_dwWordBitWidth < 64 →
      (rotateLeft64 w c.m_dwWordBitWidth).testBit c.m_dwWordBitWidth
        = w.testBit (c.m_dwWordBitWidth - 1) := by
    intro h64
    have h := rotateLeft64_testBit_succ w _ (c.m_dwWordBitWidth - 1) hW1 hW64 hw (by omega)
    rwa [Nat.sub_add_cancel hW1] at h
  refine ⟨rotateLeft64 w c.m_dwWordBitWidth, ?_, ?_, ?_, hout, ?_⟩
  · rw [SciCalcFunctions_ROL M R c w hInt hconv]
  · simp only [rotateLeft64]
    rw [Nat.mod_eq_of_lt hw64, Nat.and_one_is_mod, Nat.shiftRight_eq_div_pow,
      Nat.mod_eq_of_lt hmsb, Nat.shiftLeft_eq, pow_one, Nat.mul_comm w 2,
      msb_eq_testBit w _ hW1 hw]
  · intro i hi
    rw [Nat.testBit_mod_two_pow, hbit i hi]
    simp [hi]
  · intro h64 hset
    have h := hout h64
    rw [hset] at h
    exact Nat.testBit_implies_ge h

/-- Witness of C15: the byte `0b10000001` at width 8 with the sample library. -/
theorem rotateLeft_unmasked_witness :
    ∃ n : ℕ, (SciCalcFunctions sampleMath sampleResources sampleByteEngine
        ((129 : ℕ) : ℚ) .IDC_ROL).1 = (n : ℚ) ∧
      n = (2 * 129 % 2 ^ 64)
        ||| ((129 : ℕ).testBit (sampleByteEngine.m_dwWordBitWidth - 1)).toNat ∧
      (∀ i, i < sampleByteEngine.m_dwWordBitWidth →
        (n % 2 ^ sampleByteEngine.m_dwWordBitWidth).testBit i
          = (129 : ℕ).testBit ((i + sampleByteEngine.m_dwWordBitWidth - 1)
              % sampleByteEngine.m_dwWordBitWidth)) ∧
      (sampleByteEngine.m_dwWordBitWidth < 64 →
        n.testBit sampleByteEngine.m_dwWordBitWidth
          = (129 : ℕ).testBit (sampleByteEngine.m_dwWordBitWidth - 1)) ∧
      (sampleByteEngine.m_dwWordBitWidth < 64 →
        (129 : ℕ).testBit (sampleByteEngine.m_dwWordBitWidth - 1) = true →
        2 ^ sampleByteEngine.m_dwWordBitWidth ≤ n) :=
  rotateLeft_unmasked sampleMath sampleResources sampleByteEngine 129 rfl
    (by decide) (by decide) (by decide) (sampleMath_ToUInt64_t 129 (by norm_num))

/-- C16: outside integer mode, for a packed value `x = d + m/100 + s/10000` with `d`
a non-negative integer, `m` an integer with `0 ≤ m < 60` and `s` a rational with
`0 ≤ s < 60`, the degree-minute-second operator with the inverse flag set (decode)
yields `d + m/60 + s/3600`, and applying it to that result with the inverse flag
unset (encode) returns exactly `x`. -/
theorem dms_decode_then_encode (M : RationalMath) (R : Resources) (c : CCalcEngine)
    (d m : ℕ) (s : Rational) (hInt : c.m_fIntegerMode = false)
    (hm : m < 60) (hs0 : 0 ≤ s) (hs : s < 60) :
    (SciCalcFunctions M R { c with m_bInv := true }
      ((d : ℚ) + (m : ℚ) / 100 + s / 10000) .IDC_DMS).1
      = (d : ℚ) + (m : ℚ) / 60 + s / 3600 ∧
    (SciCalcFunctions M R
      { (SciCalcFunctions M R { c with m_bInv := true }
          ((d : ℚ) + (m : ℚ) / 100 + s / 10000) .IDC_DMS).2 with m_bInv := false }
      (SciCalcFunctions M R { c with m_bInv := true }
          ((d : ℚ) + (m : ℚ) / 100 + s / 10000) .IDC_DMS).1 .IDC_DMS).1
      = (d : ℚ) + (m : ℚ) / 100 + s / 10000 := by
  have hdec : dmsConvert true ((d : ℚ) + (m : ℚ) / 100 + s / 10000)
      = (d : ℚ) + (m : ℚ) / 60 + s / 3600 := by
    have h := dmsConvert_decode_packed (d : ℤ) (m : ℤ) s (by positivity) (by positivity)
      (by exact_mod_cast hm) hs0 hs
    simpa using h
  have henc : dmsConvert false ((d : ℚ) + (m : ℚ) / 60 + s / 3600)
      = (d : ℚ) + (m : ℚ) / 100 + s / 10000 := by
    have h := dmsConvert_encode_unpacked (d : ℤ) (m : ℤ) s (by positivity) (by positivity)
      (by exact_mod_cast hm) hs0 hs
    simpa using h
  have h1 : SciCalcFunctions M R { c with m_bInv := true }
      ((d : ℚ) + (m : ℚ) / 100 + s / 10000) .IDC_DMS
      = (dmsConvert true ((d : ℚ) + (m : ℚ) / 100 + s / 10000),
          { c with m_bInv := true }) :=
    SciCalcFunctions_DMS M R _ _ hInt
  rw [h1, hdec]
  refine ⟨rfl, ?_⟩
  have h2 : SciCalcFunctions M R { c with m_bInv := false }
      ((d : ℚ) + (m : ℚ) / 60 + s / 3600) .IDC_DMS
      = (dmsConvert false ((d : ℚ) + (m : ℚ) / 60 + s / 3600),
          { c with m_bInv := false }) :=
    SciCalcFunctions_DMS M R _ _ hInt
  show (SciCalcFunctions M R { c with m_bInv := false }
      ((d : ℚ) + (m : ℚ) / 60 + s / 3600) .IDC_DMS).1 = _
  rw [h2, henc]

/-- Witness of C16: the packed value `30.5025` (30 degrees, 50 minutes, 25 seconds). -/
theorem dms_decode_then_encode_witness :
    (SciCalcFunctions sampleMath sampleResources { sampleEngine with m_bInv := true }
      (((30 : ℕ) : ℚ) + ((50 : ℕ) : ℚ) / 100 + 25 / 10000) .IDC_DMS).1
      = ((30 : ℕ) : ℚ) + ((50 : ℕ) : ℚ) / 60 + 25 / 3600 ∧
    (SciCalcFunctions sampleMath sampleResources
      { (SciCalcFunctions sampleMath sampleResources { sampleEngine with m_bInv := true }
          (((30 : ℕ) : ℚ) + ((50 : ℕ) : ℚ) / 100 + 25 / 10000) .IDC_DMS).2
        with m_bInv := false }
      (SciCalcFunctions sampleMath sampleResources { sampleEngine with m_bInv := true }
          (((30 : ℕ) : ℚ) + ((50 : ℕ) : ℚ) / 100 + 25 / 10000) .IDC_DMS).1 .IDC_DMS).1
      = ((30 : ℕ) : ℚ) + ((50 : ℕ) : ℚ) / 100 + 25 / 10000 :=
  dms_decode_then_encode sampleMath sampleResources sampleEngine 30 50 25 rfl
    (by decide) (by norm_num) (by norm_num)

/-- C17: outside integer mode with the inverse flag unset, for every rational `x` the
result `r` of the degree-minute-second operator is a well-formed packed value with the
whole degrees of `x`: `r` and `x` have the same integer part (rounding toward zero),
and `|r - trunc r| = m/100 + s/10000` with an integer `0 ≤ m ≤ 59` and a rational
`0 ≤ s < 60`, so the fractional magnitude is below `0.596`. -/
theorem dms_encode_result_wellformed (M : RationalMath) (R : Resources) (c : CCalcEngine)
    (x : Rational) (hInt : c.m_fIntegerMode = false) (hInv : c.m_bInv = false) :
    Integer (SciCalcFunctions M R c x .IDC_DMS).1 = Integer x ∧
    ∃ m : ℤ, ∃ s : ℚ, 0 ≤ m ∧ m ≤ 59 ∧ 0 ≤ s ∧ s < 60 ∧
      |(SciCalcFunctions M R c x .IDC_DMS).1 - Integer (SciCalcFunctions M R c x .IDC_DMS).1|
        = (m : ℚ) / 100 + s / 10000 ∧
      |(SciCalcFunctions M R c x .IDC_DMS).1 - Integer (SciCalcFunctions M R c x .IDC_DMS).1|
        < 596 / 1000 := by
  rw [SciCalcFunctions_DMS M R c x hInt, hInv]
  exact dms_encode_wellformed x

/-- Witness of C17: the value `-7/3` in the sample engine. -/
theorem dms_encode_result_wellformed_witness :
    Integer (SciCalcFunctions sampleMath sampleResources sampleEngine (-7 / 3) .IDC_DMS).1
      = Integer (-7 / 3) ∧
    ∃ m : ℤ, ∃ s : ℚ, 0 ≤ m ∧ m ≤ 59 ∧ 0 ≤ s ∧ s < 60 ∧
      |(SciCalcFunctions sampleMath sampleResources sampleEngine (-7 / 3) .IDC_DMS).1
          - Integer (SciCalcFunctions sampleMath sampleResources sampleEngine
              (-7 / 3) .IDC_DMS).1|
        = (m : ℚ) / 100 + s / 10000 ∧
      |(SciCalcFunctions sampleMath sampleResources sampleEngine (-7 / 3) .IDC_DMS).1
          - Integer (SciCalcFunctions sampleMath sampleResources sampleEngine
              (-7 / 3) .IDC_DMS).1|
        < 596 / 1000 :=
  dms_encode_result_wellformed sampleMath sampleResources sampleEngine (-7 / 3) rfl rfl

/-- C18: when no library call fails (the `try` block completes with a value), the
evaluator returns that value, does not run the error display driver (the primary
display and the history collector receive nothing) and leaves the error flag as it
was; together with the error path, the display and the history collector receive a
call if and only if the library signalled an error. -/
theorem no_error_frame (M : RationalMath) (R : Resources) (c : CCalcEngine)
    (rat : Rational) (op : OpCode) :
    (∀ result, (SciCalcFunctions.tryBlock M c rat op).2 = .ok result →
      (SciCalcFunctions M R c rat op).1 = result ∧
      (SciCalcFunctions M R c rat op).2.m_bError = c.m_bError ∧
      (SciCalcFunctions M R c rat op).2.m_primaryDisplay = c.m_primaryDisplay ∧
      (SciCalcFunctions M R c rat op).2.m_HistoryCollector = c.m_HistoryCollector) ∧
    ((SciCalcFunctions M R c rat op).2.m_primaryDisplay ≠ c.m_primaryDisplay
      ↔ ∃ nErrCode, (SciCalcFunctions.tryBlock M c rat op).2 = .error nErrCode) ∧
    ((SciCalcFunctions M R c rat op).2.m_HistoryCollector ≠ c.m_HistoryCollector
      ↔ ∃ nErrCode, (SciCalcFunctions.tryBlock M c rat op).2 = .error nErrCode) := by
  have hfr : ∀ result, (SciCalcFunctions.tryBlock M c rat op).2 = .ok result →
      (SciCalcFunctions M R c rat op).1 = result ∧
      (SciCalcFunctions M R c rat op).2.m_bError = c.m_bError ∧
      (SciCalcFunctions M R c rat op).2.m_primaryDisplay = c.m_primaryDisplay ∧
      (SciCalcFunctions M R c rat op).2.m_HistoryCollector = c.m_HistoryCollector := by
    intro result h
    rw [SciCalcFunctions_of_ok M R c rat op result h, tryBlock_fst]
    by_cases hop : op = .IDC_DEGREES
    · simp [hop, ProcessCommand]
    · simp [hop]
  have herr : ∀ e, (SciCalcFunctions.tryBlock M c rat op).2 = .error e →
      (SciCalcFunctions M R c rat op).2.m_primaryDisplay ≠ c.m_primaryDisplay ∧
      (SciCalcFunctions M R c rat op).2.m_HistoryCollector ≠ c.m_HistoryCollector := by
    intro e h
    rw [SciCalcFunctions_of_error M R c rat op e h, tryBlock_fst]
    by_cases hop : op = .IDC_DEGREES
    · simp [hop, ProcessCommand, DisplayError]
    · simp [hop, DisplayError]
  refine ⟨hfr, ?_, ?_⟩
  · constructor
    · intro hne
      cases h : (SciCalcFunctions.tryBlock M c rat op).2 with
      | error e => exact ⟨e, rfl⟩
      | ok r => exact absurd (hfr r h).2.2.1 hne
    · rintro ⟨e, h⟩
      exact (herr e h).1
  · constructor
    · intro hne
      cases h : (SciCalcFunctions.tryBlock M c rat op).2 with
      | error e => exact ⟨e, rfl⟩
      | ok r => exact absurd (hfr r h).2.2.2 hne
    · rintro ⟨e, h⟩
      exact (herr e h).2

/-- Witness of C18: the reciprocal of `4`, which the sample library computes. -/
theorem no_error_frame_witness :
    (SciCalcFunctions sampleMath sampleResources sampleEngine 4 .IDC_REC).1 = 4⁻¹ ∧
    (SciCalcFunctions sampleMath sampleResources sampleEngine 4 .IDC_REC).2.m_bError
      = sampleEngine.m_bError ∧
    (SciCalcFunctions sampleMath sampleResources sampleEngine 4 .IDC_REC).2.m_primaryDisplay
      = sampleEngine.m_primaryDisplay ∧
    (SciCalcFunctions sampleMath sampleResources sampleEngine 4 .IDC_REC).2.m_HistoryCollector
      = sampleEngine.m_HistoryCollector :=
  (no_error_frame sampleMath sampleResources sampleEngine 4 .IDC_REC).1 4⁻¹
    (by simp [SciCalcFunctions.tryBlock, sampleMath])

/-- C19: outside integer mode the rotate-left and rotate-right operators, and in any
mode every operator code that the `switch` does not dispatch, return the default
value `0` (not the operand) and leave the engine record as it was, so no error is
signalled. -/
theorem undispatched_returns_default (M : RationalMath) (R : Resources) (c : CCalcEngine)
    (x : Rational) :
    (c.m_fIntegerMode = false →
      SciCalcFunctions M R c x .IDC_ROL = (0, c) ∧
      SciCalcFunctions M R c x .IDC_ROR = (0, c)) ∧
    (∀ code, SciCalcFunctions M R c x (.other code) = (0, c)) ∧
    SciCalcFunctions M R c x .IDC_INV = (0, c) ∧
    SciCalcFunctions M R c x .IDC_MUL = (0, c) ∧
    SciCalcFunctions M R c x .IDC_DIV = (0, c) := by
  refine ⟨?_, fun _ => rfl, rfl, rfl, rfl⟩
  intro h
  simp [SciCalcFunctions, SciCalcFunctions.tryBlock, h]

/-- Witness of C19: rotate-left and rotate-right of `5` in the non-integer sample
engine. -/
theorem undispatched_returns_default_witness :
    SciCalcFunctions sampleMath sampleResources sampleEngine 5 .IDC_ROL
      = (0, sampleEngine) ∧
    SciCalcFunctions sampleMath sampleResources sampleEngine 5 .IDC_ROR
      = (0, sampleEngine) :=
  (undispatched_returns_default sampleMath sampleResources sampleEngine 5).1 rfl

end CalcEngine
